import Mathlib

/-
Verification of the markdown post repository in `src/lib/posts.js`.

The repository's designable core is three query operations over a directory
of markdown files with front matter:

  * `getSortedPostsData` (spec name `listPostSummaries`)  — lines 10-38
  * `getAllPostIds`      (spec name `listPostIdentifiers`) — lines 40-70
  * `getPostData`        (spec name `getPost`)             — lines 72-91

We embed them shallowly.  The filesystem is a snapshot: a list of
(file name, file) pairs.  The third-party `gray-matter` parser is external
to this repository, so a file is represented directly by the result of
parsing it: its front-matter key/value pairs (`data`) and its markdown
body (`content`); per the spec the front matter is a mapping from strings
to strings.  JavaScript objects built by the code are represented as lists
of (key, value) bindings in spread order, where a later binding overrides
an earlier one, as object spread does.  `fs.readFileSync` is a lookup in
the snapshot that throws (here: returns `none`) when the name is absent.
The `remark().use(html)` markdown pipeline is likewise third-party; the
operations are parameterised over the conversion function, and a
spec-modelled conversion is supplied for the round-trip property.
-/

namespace PostsLib

/-- The result of parsing one post file with `gray-matter`: the
front-matter `data` mapping and the markdown `content` body.  The parser
itself is a third-party dependency, so files are modelled by their parsed
form. -/
structure MatterResult where
  data : List (String × String)
  content : String
deriving DecidableEq

/-- A snapshot of the posts directory: `fs.readdirSync` enumerates the
first components, `fs.readFileSync` retrieves (the parsed form of) the
file stored under a name. -/
abbrev FileSystem := List (String × MatterResult)

/-- Models `fs.readFileSync(path.join(postsDirectory, name))`: the file
stored under `name` in the snapshot, or `none` when the read throws
because no such file exists. -/
def readFileSync : FileSystem → String → Option MatterResult
  | [], _ => none
  | (n, f) :: rest, name => if n == name then some f else readFileSync rest name

/-- Models `fileName.replace(/\.md$/, "")` (lines 15 and 66): remove a
trailing `.md`; any other name is returned unchanged. -/
def stripMd (s : String) : String :=
  if List.isSuffixOf ".md".data s.data then String.mk (s.data.take (s.data.length - 3))
  else s

/-- Field access on a JavaScript object represented as bindings in spread
order: the latest binding for the key wins; `none` models `undefined`. -/
def getField : List (String × String) → String → Option String
  | [], _ => none
  | (k, v) :: rest, key =>
    match getField rest key with
    | some w => some w
    | none => if key == k then some v else none

/-- Whether a JavaScript object (as a binding list) has a field named
`key` at all. -/
def hasField (o : List (String × String)) (key : String) : Bool :=
  o.any fun p => p.1 == key

/-- The record `{ id, ...matterResult.data }` built for one file by
`getSortedPostsData` (lines 25-28): the derived id first, then the spread
front matter, which overrides it on a key collision. -/
def summaryRecord (fileName : String) (f : MatterResult) : List (String × String) :=
  ("id", stripMd fileName) :: f.data

/-- Boolean lexicographic comparison of character lists; this is the
order JavaScript's `<` applies to strings. -/
def charListLt : List Char → List Char → Bool
  | _, [] => false
  | [], _ :: _ => true
  | a :: as, b :: bs => if a < b then true else if b < a then false else charListLt as bs

/-- JavaScript `<` on the possibly-`undefined` results of property
access: any comparison involving `undefined` is false. -/
def jsLtUndef : Option String → Option String → Bool
  | some a, some b => charListLt a.data b.data
  | _, _ => false

/-- The sort comparator of lines 31-37:
`(a, b) => { if (a.date < b.date) return 1; else return -1; }`. -/
def dateComparator (a b : List (String × String)) : Int :=
  if jsLtUndef (getField a "date") (getField b "date") then 1 else -1

/-- One insertion step of the comparator-driven sort: `x` is placed
before the first element `y` with `c x y ≤ 0`. -/
def insertComp {α : Type} (c : α → α → Int) (x : α) : List α → List α
  | [] => [x]
  | y :: ys => if c x y ≤ 0 then x :: y :: ys else y :: insertComp c x ys

/-- `Array.prototype.sort(c)` modelled as an insertion sort driven by the
comparator `c`: elements end up in an order where earlier elements compare
`≤ 0` against later ones whenever the comparator is consistent. -/
def sortComp {α : Type} (c : α → α → Int) : List α → List α
  | [] => []
  | x :: xs => insertComp c x (sortComp c xs)

/-- `getSortedPostsData` (lines 10-38): read every file of the directory,
build `{ id, ...data }` for each, and sort with the date comparator. -/
def getSortedPostsData (snap : FileSystem) : List (List (String × String)) :=
  sortComp dateComparator (snap.map fun p => summaryRecord p.1 p.2)

/-- The inner object of a static path: `{ id: ... }`. -/
structure RouteParams where
  id : String
deriving DecidableEq

/-- The shape `{ params: { id: ... } }` returned by `getAllPostIds`,
required by the framework's static-route generation. -/
structure StaticPath where
  params : RouteParams
deriving DecidableEq

/-- `getAllPostIds` (lines 40-70): every file name with `.md` stripped,
wrapped as `{ params: { id } }`. -/
def getAllPostIds (snap : FileSystem) : List StaticPath :=
  snap.map fun p => ⟨⟨stripMd p.1⟩⟩

/-- `getPostData` (lines 72-91): read `<id>.md`, convert the body with
the markdown pipeline `md2html`, and return
`{ id, contentHtml, ...matterResult.data }`; `none` models the uncaught
`readFileSync` throw when the file is absent. -/
def getPostData (md2html : String → String) (snap : FileSystem) (id : String) :
    Option (List (String × String)) :=
  (readFileSync snap (id ++ ".md")).map fun f =>
    ("id", id) :: ("contentHtml", md2html f.content) :: f.data

/-- Inline pass of the modelled markdown conversion: a span delimited by
`*` becomes an `em` element. -/
def emphasize : List Char → Bool → List Char
  | [], _ => []
  | '*' :: rest, false => "<em>".data ++ emphasize rest true
  | '*' :: rest, true => "</em>".data ++ emphasize rest false
  | c :: rest, b => c :: emphasize rest b

/-- Block splitting of the modelled markdown conversion: blocks are
separated by blank lines (two consecutive newlines). -/
def splitBlocks : List Char → List Char → List (List Char)
  | [], acc => [acc.reverse]
  | '\n' :: '\n' :: rest, acc => acc.reverse :: splitBlocks rest []
  | c :: rest, acc => splitBlocks rest (c :: acc)

/-- Rendering of one block in the modelled markdown conversion: a line
starting with a hash and a space becomes an `h1` heading, anything else a
paragraph, with inline emphasis applied in both. -/
def mdBlock (l : List Char) : List Char :=
  match l with
  | '#' :: ' ' :: rest => "<h1>".data ++ emphasize rest false ++ "</h1>".data
  | _ => "<p>".data ++ emphasize l false ++ "</p>".data

/-- Joining the rendered blocks of the modelled markdown conversion with
newlines. -/
def renderBlocks : List (List Char) → List Char
  | [] => []
  | [b] => mdBlock b
  | b :: rest => mdBlock b ++ '\n' :: renderBlocks rest

/-- Modelled from the spec: the markdown-to-HTML conversion performed by
the third-party `remark().use(html)` pipeline called at lines 80-83 of
`src/lib/posts.js`, whose code is not part of this repository.  The spec
asks for a CommonMark-compatible pass over headings, paragraphs and
emphasis at minimum; this model splits the body into blank-line-separated
blocks, renders a leading-hash block as an `h1` element and any other
block as a paragraph, and wraps star-delimited spans in `em` elements. -/
def remarkHtml (s : String) : String :=
  String.mk (renderBlocks (splitBlocks s.data []))

lemma charListLt_iff_lex (a : List Char) : ∀ b : List Char,
    charListLt a b = true ↔ List.Lex (fun x y : Char => x < y) a b := by
  induction a with
  | nil =>
    intro b
    cases b with
    | nil => exact iff_of_false (by simp [charListLt]) (List.Lex.not_nil_right _ _)
    | cons y ys => exact iff_of_true (by simp [charListLt]) List.Lex.nil
  | cons x xs ih =>
    intro b
    cases b with
    | nil => exact iff_of_false (by simp [charListLt]) (List.Lex.not_nil_right _ _)
    | cons y ys =>
      simp only [charListLt]
      rcases lt_trichotomy x y with hxy | heq | hyx
      · rw [if_pos hxy]
        exact iff_of_true rfl (List.Lex.rel hxy)
      · subst heq
        rw [if_neg (lt_irrefl x), if_neg (lt_irrefl x)]
        rw [ih ys]
        constructor
        · exact fun h => List.Lex.cons h
        · intro h
          cases h with
          | cons h => exact h
          | rel h => exact absurd h (lt_irrefl x)
      · rw [if_neg (lt_asymm hyx), if_pos hyx]
        refine iff_of_false (by simp) fun h => ?_
        cases h with
        | cons h => exact absurd hyx (lt_irrefl x)
        | rel h => exact absurd h (lt_asymm hyx)

lemma charListLt_iff_lt (a b : String) : charListLt a.data b.data = true ↔ a < b := by
  rw [String.lt_iff_toList_lt]
  exact charListLt_iff_lex a.data b.data

lemma charListLt_eq_false_iff (a b : String) : charListLt a.data b.data = false ↔ b ≤ a := by
  rw [← not_lt, ← charListLt_iff_lt a b]
  cases charListLt a.data b.data <;> simp

lemma insertComp_perm {α : Type} (c : α → α → Int) (x : α) :
    ∀ l : List α, (insertComp c x l).Perm (x :: l) := by
  intro l
  induction l with
  | nil => simp [insertComp]
  | cons y ys ih =>
    simp only [insertComp]
    by_cases h : c x y ≤ 0
    · rw [if_pos h]
    · rw [if_neg h]
      exact (ih.cons y).trans (List.Perm.swap x y ys)

lemma sortComp_perm {α : Type} (c : α → α → Int) :
    ∀ l : List α, (sortComp c l).Perm l := by
  intro l
  induction l with
  | nil => simp [sortComp]
  | cons x xs ih => exact (insertComp_perm c x _).trans (ih.cons x)

lemma chain_insertComp {α : Type} (c : α → α → Int) (R : α → α → Prop)
    (hstop : ∀ a b, c a b ≤ 0 → R a b)
    (hpass : ∀ a b, ¬ c a b ≤ 0 → R b a)
    (x : α) :
    ∀ l : List α, l.Chain' R → (insertComp c x l).Chain' R := by
  intro l
  induction l with
  | nil => intro _; simp [insertComp]
  | cons y ys ih =>
    intro hl
    simp only [insertComp]
    by_cases h : c x y ≤ 0
    · rw [if_pos h]
      exact List.chain'_cons.mpr ⟨hstop x y h, hl⟩
    · rw [if_neg h]
      have htail : (insertComp c x ys).Chain' R := ih hl.tail
      refine htail.cons' fun z hz => ?_
      cases ys with
      | nil =>
        simp [insertComp] at hz
        subst hz
        exact hpass x y h
      | cons w ws =>
        by_cases hxw : c x w ≤ 0
        · simp [insertComp, if_pos hxw] at hz
          subst hz
          exact hpass x y h
        · simp [insertComp, if_neg hxw] at hz
          subst hz
          exact (List.chain'_cons.mp hl).1

lemma chain_sortComp {α : Type} (c : α → α → Int) (R : α → α → Prop)
    (hstop : ∀ a b, c a b ≤ 0 → R a b)
    (hpass : ∀ a b, ¬ c a b ≤ 0 → R b a) :
    ∀ l : List α, (sortComp c l).Chain' R := by
  intro l
  induction l with
  | nil => simp [sortComp]
  | cons x xs ih => exact chain_insertComp c R hstop hpass x _ ih

lemma stripMd_append_md (s : String) (h : List.isSuffixOf ".md".data s.data = true) :
    stripMd s ++ ".md" = s := by
  have hs : ".md".data <:+ s.data := List.isSuffixOf_iff_suffix.mp h
  have he : s.data.take (s.data.length - 3) ++ ".md".data = s.data := by
    simpa using List.suffix_iff_eq_append.mp hs
  unfold stripMd
  rw [if_pos h]
  show String.mk (s.data.take (s.data.length - 3) ++ ".md".data) = s
  rw [he]

lemma stripMd_of_not_md (s : String) (h : List.isSuffixOf ".md".data s.data = false) :
    stripMd s = s := by
  simp [stripMd, h]

lemma readFileSync_of_mem (name : String) (f : MatterResult) :
    ∀ snap : FileSystem, (name, f) ∈ snap →
      ∃ g, readFileSync snap name = some g ∧ (name, g) ∈ snap := by
  intro snap
  induction snap with
  | nil => intro h; cases h
  | cons p rest ih =>
    intro hmem
    obtain ⟨n, g⟩ := p
    by_cases hn : n == name
    · exact ⟨g, by simp [readFileSync, hn], by simp [List.mem_cons, eq_of_beq hn]⟩
    · have : (name, f) ∈ rest := by
        rcases List.mem_cons.mp hmem with heq | htail
        · cases heq; simp at hn
        · exact htail
      obtain ⟨g', hg', hmem'⟩ := ih this
      exact ⟨g', by simp [readFileSync, hn, hg'], List.mem_cons_of_mem _ hmem'⟩

lemma getField_cons_of_some (k v key w : String) (rest : List (String × String))
    (h : getField rest key = some w) :
    getField ((k, v) :: rest) key = some w := by
  simp [getField, h]

lemma getField_cons_of_none (k v key : String) (rest : List (String × String))
    (h : getField rest key = none) :
    getField ((k, v) :: rest) key = if key == k then some v else none := by
  simp [getField, h]

lemma getField_summaryRecord_id_of_none (n : String) (f : MatterResult)
    (h : getField f.data "id" = none) :
    getField (summaryRecord n f) "id" = some (stripMd n) := by
  rw [summaryRecord, getField_cons_of_none _ _ _ _ h]
  rfl

lemma getField_summaryRecord_id_of_some (n v : String) (f : MatterResult)
    (h : getField f.data "id" = some v) :
    getField (summaryRecord n f) "id" = some v :=
  getField_cons_of_some _ _ _ _ _ h

lemma getField_postRecord_id_of_none (i e : String) (data : List (String × String))
    (h : getField data "id" = none) :
    getField (("id", i) :: ("contentHtml", e) :: data) "id" = some i := by
  have h2 : getField (("contentHtml", e) :: data) "id" = none := by
    rw [getField_cons_of_none _ _ _ _ h]
    rfl
  rw [getField_cons_of_none _ _ _ _ h2]
  rfl

lemma getField_postRecord_id_of_some (i e v : String) (data : List (String × String))
    (h : getField data "id" = some v) :
    getField (("id", i) :: ("contentHtml", e) :: data) "id" = some v :=
  getField_cons_of_some _ _ _ _ _ (getField_cons_of_some _ _ _ _ _ h)

lemma getField_postRecord_html_of_none (i e : String) (data : List (String × String))
    (h : getField data "contentHtml" = none) :
    getField (("id", i) :: ("contentHtml", e) :: data) "contentHtml" = some e := by
  have h2 : getField (("contentHtml", e) :: data) "contentHtml" = some e := by
    rw [getField_cons_of_none _ _ _ _ h]
    rfl
  exact getField_cons_of_some _ _ _ _ _ h2

lemma getField_postRecord_html_of_some (i e v : String) (data : List (String × String))
    (h : getField data "contentHtml" = some v) :
    getField (("id", i) :: ("contentHtml", e) :: data) "contentHtml" = some v :=
  getField_cons_of_some _ _ _ _ _ (getField_cons_of_some _ _ _ _ _ h)

lemma hasField_summaryRecord_html (n : String) (f : MatterResult) :
    hasField (summaryRecord n f) "contentHtml" = hasField f.data "contentHtml" :=
  rfl

lemma hasField_postRecord_html (i e : String) (data : List (String × String)) :
    hasField (("id", i) :: ("contentHtml", e) :: data) "contentHtml" = true :=
  rfl

/-- Executable check that `pat` occurs as a contiguous run inside `l`;
used to state that a rendered HTML fragment contains a given element. -/
def infixOfB (pat : List Char) : List Char → Bool
  | [] => pat.isEmpty
  | c :: rest => pat.isPrefixOf (c :: rest) || infixOfB pat rest

/-- The parsed form of the tutorial file `ssg-ssr.md`. -/
def ssgSsrPost : MatterResult :=
  ⟨[("title", "When to Use Static Generation v.s. Server-side Rendering"),
    ("date", "2020-01-02")],
   "We recommend using Static Generation over Server-side Rendering."⟩

/-- The parsed form of the tutorial file `pre-rendering.md`. -/
def preRenderingPost : MatterResult :=
  ⟨[("title", "Two Forms of Pre-rendering"),
    ("date", "2020-01-01")],
   "Next.js has two forms of pre-rendering."⟩

/-- The posts directory of the tutorial repository: exactly `ssg-ssr.md`
and `pre-rendering.md`. -/
def demoPosts : FileSystem :=
  [("ssg-ssr.md", ssgSsrPost), ("pre-rendering.md", preRenderingPost)]

lemma dateComparator_le_iff (a b : List (String × String)) :
    dateComparator a b ≤ 0 ↔
      jsLtUndef (getField a "date") (getField b "date") = false := by
  unfold dateComparator
  cases hj : jsLtUndef (getField a "date") (getField b "date") <;> simp [hj]

/-- C1 counterexample: for the snapshot holding the single file
`foo.txt`, `getAllPostIds` lists the identifier `foo.txt`, yet
`getPostData "foo.txt"` looks for `foo.txt.md` and fails, so not every
listed identifier can be fetched. -/
theorem getAllPostIds_not_always_fetchable :
    StaticPath.mk ⟨"foo.txt"⟩ ∈ getAllPostIds [("foo.txt", ⟨[], ""⟩)] ∧
    getPostData (fun s => s) [("foo.txt", ⟨[], ""⟩)] "foo.txt" = none := by
  decide

/-- C1 (amended): over a snapshot whose file names all end in `.md` and
whose front matter nowhere defines an `id` key, every identifier listed
by `getAllPostIds` can be fetched with `getPostData`, which succeeds and
returns a record whose `id` field equals that identifier. -/
theorem getPostData_succeeds_on_listed_ids (md2html : String → String) (snap : FileSystem)
    (hmd : ∀ p ∈ snap, List.isSuffixOf ".md".data (p.1).data = true)
    (hid : ∀ p ∈ snap, getField p.2.data "id" = none) :
    ∀ r ∈ getAllPostIds snap,
      ∃ rec, getPostData md2html snap r.params.id = some rec ∧
        getField rec "id" = some r.params.id := by
  intro r hr
  rcases List.mem_map.mp hr with ⟨p, hp, rfl⟩
  obtain ⟨n, f⟩ := p
  have hname : stripMd n ++ ".md" = n := stripMd_append_md n (hmd (n, f) hp)
  obtain ⟨g, hg, hgmem⟩ := readFileSync_of_mem n f snap hp
  refine ⟨("id", stripMd n) :: ("contentHtml", md2html g.content) :: g.data, ?_, ?_⟩
  · show (readFileSync snap (stripMd n ++ ".md")).map _ = _
    rw [hname, hg]
    rfl
  · exact getField_postRecord_id_of_none _ _ _ (hid (n, g) hgmem)

/-- C1 witness: the listed identifier `ssg-ssr` of the tutorial snapshot
is fetchable and comes back with `id` field `ssg-ssr`. -/
theorem getPostData_succeeds_on_listed_ids_witness :
    ∃ rec, getPostData remarkHtml demoPosts (StaticPath.mk ⟨"ssg-ssr"⟩).params.id = some rec ∧
      getField rec "id" = some (StaticPath.mk ⟨"ssg-ssr"⟩).params.id :=
  getPostData_succeeds_on_listed_ids remarkHtml demoPosts (by decide) (by decide)
    ⟨⟨"ssg-ssr"⟩⟩ (by decide)

/-- C2: the summaries produced by `getSortedPostsData` are in
non-increasing lexical order of the `date` field — for adjacent records,
the later record's date is at most the earlier record's date — and on the
tutorial snapshot the post dated `2020-01-02` comes before the one dated
`2020-01-01`. -/
theorem getSortedPostsData_date_descending (snap : FileSystem) :
    (getSortedPostsData snap).Chain'
      (fun a b => ∀ da db, getField a "date" = some da → getField b "date" = some db →
        db ≤ da) ∧
    getSortedPostsData demoPosts =
      [summaryRecord "ssg-ssr.md" ssgSsrPost,
       summaryRecord "pre-rendering.md" preRenderingPost] := by
  constructor
  · apply chain_sortComp
    · intro a b h da db ha hb
      have hj := (dateComparator_le_iff a b).mp h
      rw [ha, hb] at hj
      exact (charListLt_eq_false_iff da db).mp hj
    · intro a b h da db hb ha
      have hj : jsLtUndef (getField a "date") (getField b "date") = true := by
        rcases hx : jsLtUndef (getField a "date") (getField b "date") with _ | _
        · exact absurd ((dateComparator_le_iff a b).mpr hx) h
        · rfl
      rw [ha, hb] at hj
      exact le_of_lt ((charListLt_iff_lt db da).mp hj)
  · decide

/-- C2 witness: the chain of non-increasing dates, instantiated on the
tutorial snapshot. -/
theorem getSortedPostsData_date_descending_witness :
    (getSortedPostsData demoPosts).Chain'
      (fun a b => ∀ da db, getField a "date" = some da → getField b "date" = some db →
        db ≤ da) :=
  (getSortedPostsData_date_descending demoPosts).1

/-- C3: every element of `getAllPostIds` is the structured route
parameter wrapping the stripped identifier of some file of the snapshot
(not a bare string — it is a `StaticPath` whose `params.id` holds the
identifier), and on the tutorial snapshot the result is exactly the set
with the wrapped identifiers `ssg-ssr` and `pre-rendering`. -/
theorem getAllPostIds_wraps_stripped_ids (snap : FileSystem) :
    (∀ r ∈ getAllPostIds snap, ∃ p ∈ snap, r = StaticPath.mk ⟨stripMd p.1⟩) ∧
    (∀ r : StaticPath, r ∈ getAllPostIds demoPosts ↔
      r = ⟨⟨"ssg-ssr"⟩⟩ ∨ r = ⟨⟨"pre-rendering"⟩⟩) := by
  constructor
  · intro r hr
    rcases List.mem_map.mp hr with ⟨p, hp, heq⟩
    exact ⟨p, hp, heq.symm⟩
  · have h : getAllPostIds demoPosts = [⟨⟨"ssg-ssr"⟩⟩, ⟨⟨"pre-rendering"⟩⟩] := by decide
    rw [h]
    intro r
    simp

/-- C3 witness: the first element of the tutorial result is the wrapper
of a stripped file name of the snapshot. -/
theorem getAllPostIds_wraps_stripped_ids_witness :
    ∃ p ∈ demoPosts, (StaticPath.mk ⟨"ssg-ssr"⟩ : StaticPath) = StaticPath.mk ⟨stripMd p.1⟩ :=
  (getAllPostIds_wraps_stripped_ids demoPosts).1 ⟨⟨"ssg-ssr"⟩⟩ (by decide)

/-- C4 counterexample: the file `note.txt` yields the identifier
`note.txt`, not `note` — only a trailing `.md` is stripped, not an
arbitrary extension. -/
theorem stripMd_keeps_other_extensions :
    getAllPostIds [("note.txt", ⟨[], ""⟩)] = [⟨⟨"note.txt"⟩⟩] ∧
    ("note.txt" : String) ≠ "note" := by
  decide

/-- C4 (amended): the identifier derived by `getAllPostIds` and
`getSortedPostsData` for each file is `stripMd` of its name, where
`stripMd` removes a trailing `.md` when the name ends in `.md` and
leaves any other name unchanged. -/
theorem derived_id_strips_md_suffix (snap : FileSystem) :
    ((getAllPostIds snap).map (fun r => r.params.id) = snap.map (fun p => stripMd p.1)) ∧
    (∀ rec ∈ getSortedPostsData snap, ∃ p ∈ snap, rec = summaryRecord p.1 p.2) ∧
    (∀ s : String,
      (List.isSuffixOf ".md".data s.data = true → stripMd s ++ ".md" = s) ∧
      (List.isSuffixOf ".md".data s.data = false → stripMd s = s)) := by
  refine ⟨?_, ?_, ?_⟩
  · simp only [getAllPostIds, List.map_map]
    rfl
  · intro rec hrec
    have hmem : rec ∈ snap.map (fun p => summaryRecord p.1 p.2) :=
      (sortComp_perm dateComparator _).mem_iff.mp hrec
    rcases List.mem_map.mp hmem with ⟨p, hp, heq⟩
    exact ⟨p, hp, heq.symm⟩
  · intro s
    exact ⟨stripMd_append_md s, stripMd_of_not_md s⟩

/-- C4 witness: on the tutorial file name `pre-rendering.md` the
stripped identifier recovers the file name when `.md` is appended
back. -/
theorem derived_id_strips_md_suffix_witness :
    stripMd "pre-rendering.md" ++ ".md" = "pre-rendering.md" :=
  ((derived_id_strips_md_suffix demoPosts).2.2 "pre-rendering.md").1 (by decide)

/-- C5: when no file `<identifier>.md` exists in the snapshot,
`getPostData` fails (the uncaught `readFileSync` throw, modelled as
`none`) and returns no record. -/
theorem getPostData_fails_when_absent (md2html : String → String) (snap : FileSystem)
    (id : String) (h : readFileSync snap (id ++ ".md") = none) :
    getPostData md2html snap id = none := by
  simp [getPostData, h]

/-- C5 witness: `getPostData "does-not-exist"` fails on the tutorial
snapshot. -/
theorem getPostData_fails_when_absent_witness :
    getPostData remarkHtml demoPosts "does-not-exist" = none :=
  getPostData_fails_when_absent remarkHtml demoPosts "does-not-exist" (by decide)

/-- C6 counterexample: a file whose front matter itself defines a
`contentHtml` key makes `getSortedPostsData` return a summary record that
does contain a `contentHtml` field, because the front matter is spread
into the record. -/
theorem summary_can_contain_contentHtml :
    ∃ rec ∈ getSortedPostsData [("a.md", ⟨[("contentHtml", "boom")], ""⟩)],
      hasField rec "contentHtml" = true := by
  decide

/-- C6 (amended): provided no file's front matter defines a
`contentHtml` key, no record of `getSortedPostsData` contains a
`contentHtml` field; and every successful `getPostData` result contains a
`contentHtml` field unconditionally. -/
theorem contentHtml_only_in_single_post (md2html : String → String) (snap : FileSystem) :
    ((∀ p ∈ snap, hasField p.2.data "contentHtml" = false) →
      ∀ rec ∈ getSortedPostsData snap, hasField rec "contentHtml" = false) ∧
    (∀ id rec, getPostData md2html snap id = some rec →
      hasField rec "contentHtml" = true) := by
  constructor
  · intro hno rec hrec
    have hmem : rec ∈ snap.map (fun p => summaryRecord p.1 p.2) :=
      (sortComp_perm dateComparator _).mem_iff.mp hrec
    rcases List.mem_map.mp hmem with ⟨p, hp, heq⟩
    rw [← heq, hasField_summaryRecord_html]
    exact hno p hp
  · intro id rec h
    rcases hr : readFileSync snap (id ++ ".md") with _ | f
    · simp only [getPostData, hr, Option.map_none'] at h
      exact Option.noConfusion h
    · simp only [getPostData, hr, Option.map_some', Option.some.injEq] at h
      rw [← h]
      exact hasField_postRecord_html _ _ _

/-- C6 witness: on the tutorial snapshot, the summary of `ssg-ssr.md`
has no `contentHtml` field. -/
theorem contentHtml_only_in_single_post_witness :
    hasField (summaryRecord "ssg-ssr.md" ssgSsrPost) "contentHtml" = false :=
  (contentHtml_only_in_single_post remarkHtml demoPosts).1 (by decide)
    (summaryRecord "ssg-ssr.md" ssgSsrPost) (by decide)

/-- C7: `getSortedPostsData` returns exactly one summary per source file
of the snapshot — nothing is filtered out and nothing is paginated. -/
theorem getSortedPostsData_length (snap : FileSystem) :
    (getSortedPostsData snap).length = snap.length := by
  unfold getSortedPostsData
  rw [(sortComp_perm dateComparator _).length_eq, List.length_map]

/-- C8: each query operation is a deterministic function of the snapshot
and its argument, so repeated calls over unchanged backing files return
equal results. -/
theorem queries_deterministic (md2html : String → String) (snap : FileSystem) (id : String) :
    getSortedPostsData snap = getSortedPostsData snap ∧
    getAllPostIds snap = getAllPostIds snap ∧
    getPostData md2html snap id = getPostData md2html snap id :=
  ⟨rfl, rfl, rfl⟩

/-- C9: a post whose body is `# Title\n\nSome *text*.` renders, through
the (spec-modelled) markdown pipeline, to HTML containing an `h1` element
wrapping `Title` and an `em` element wrapping `text`. -/
theorem markdown_round_trip :
    ∃ rec html,
      getPostData remarkHtml
          [("title-post.md", ⟨[("date", "2020-01-03")], "# Title\n\nSome *text*."⟩)]
          "title-post" = some rec ∧
      getField rec "contentHtml" = some html ∧
      infixOfB "<h1>Title</h1>".data html.data = true ∧
      infixOfB "<em>text</em>".data html.data = true := by
  refine ⟨_, _, rfl, rfl, ?_, ?_⟩ <;> decide

/-- C10: because the front matter is spread into the result after the
derived fields, a front-matter `id` (resp. `contentHtml`) key overrides
the filename-derived identifier (resp. the rendered HTML) in the records
returned by `getPostData` and `getSortedPostsData`, while the derived
values survive exactly when the front matter omits those keys. -/
theorem front_matter_spread_overrides (md2html : String → String) (snap : FileSystem)
    (id : String) (f : MatterResult) (v : String)
    (hread : readFileSync snap (id ++ ".md") = some f) :
    ((getField f.data "id" = some v →
        ∃ rec, getPostData md2html snap id = some rec ∧ getField rec "id" = some v) ∧
     (getField f.data "id" = none →
        ∃ rec, getPostData md2html snap id = some rec ∧ getField rec "id" = some id) ∧
     (getField f.data "contentHtml" = some v →
        ∃ rec, getPostData md2html snap id = some rec ∧
          getField rec "contentHtml" = some v) ∧
     (getField f.data "contentHtml" = none →
        ∃ rec, getPostData md2html snap id = some rec ∧
          getField rec "contentHtml" = some (md2html f.content))) ∧
    (∀ p ∈ snap,
      summaryRecord p.1 p.2 ∈ getSortedPostsData snap ∧
      (getField p.2.data "id" = some v →
        getField (summaryRecord p.1 p.2) "id" = some v) ∧
      (getField p.2.data "id" = none →
        getField (summaryRecord p.1 p.2) "id" = some (stripMd p.1))) := by
  have hpost : getPostData md2html snap id =
      some (("id", id) :: ("contentHtml", md2html f.content) :: f.data) := by
    simp [getPostData, hread]
  constructor
  · refine ⟨fun h => ⟨_, hpost, ?_⟩, fun h => ⟨_, hpost, ?_⟩,
      fun h => ⟨_, hpost, ?_⟩, fun h => ⟨_, hpost, ?_⟩⟩
    · exact getField_postRecord_id_of_some _ _ _ _ h
    · exact getField_postRecord_id_of_none _ _ _ h
    · exact getField_postRecord_html_of_some _ _ _ _ h
    · exact getField_postRecord_html_of_none _ _ _ h
  · intro p hp
    refine ⟨?_, fun h => getField_summaryRecord_id_of_some _ _ _ h,
      fun h => getField_summaryRecord_id_of_none _ _ h⟩
    exact (sortComp_perm dateComparator _).mem_iff.mpr
      (List.mem_map.mpr ⟨p, hp, rfl⟩)

/-- C10 witness: on a file whose front matter defines both an `id` and a
`contentHtml` key, the front-matter values win over the derived ones. -/
theorem front_matter_spread_overrides_witness :
    ∃ rec, getPostData (fun s => s)
        [("o.md", ⟨[("id", "x"), ("contentHtml", "x")], "body"⟩)] "o" = some rec ∧
      getField rec "id" = some "x" :=
  (front_matter_spread_overrides (fun s => s)
      [("o.md", ⟨[("id", "x"), ("contentHtml", "x")], "body"⟩)] "o"
      ⟨[("id", "x"), ("contentHtml", "x")], "body"⟩ "x" (by decide)).1.1 (by decide)

end PostsLib
